import Mathlib

/-!
# SolaceCrypt: `filesystem.FileManager.HideFolder`

A shallow embedding of `src/filesystem/manager.go`.  The Go function is a
straight-line sequence of calls into the standard library (`os`, `strings`,
`path/filepath`) on one file.  The embedding keeps the body of `HideFolder`
as it is written and gives the library calls their documented Unix
semantics over an explicit world: a map from paths to files, the list of
open file handles, and a log of the I/O steps performed.

A Go string is a sequence of bytes; it is embedded as a list of `Char`, one
per byte.  Every literal of the source is ASCII.
-/

namespace SolaceCrypt

/-- A Go `string` or `[]byte`: a sequence of bytes. -/
abbrev GoString := List Char

/-! ## `strings` -/

/-- Go `strings.Contains(s, substr)`: `substr` occurs somewhere within `s`. -/
def stringsContains : GoString → GoString → Bool
  | [], substr => substr.isEmpty
  | c :: s, substr => substr.isPrefixOf (c :: s) || stringsContains s substr

/-- Go `strings.Join(elems, sep)`. -/
def stringsJoin (elems : List GoString) (sep : GoString) : GoString :=
  sep.intercalate elems

/-! ## `path/filepath` (Unix) -/

/-- The inner loop of the `..` case of `filepath.Clean`:
`for out.w > dotdot && out.index(out.w) != '/' { out.w-- }`, returning the final `out.w`. -/
def backtrackScan (buf : GoString) (dotdot : Nat) : Nat → Nat
  | 0 => 0
  | w + 1 =>
    if w + 1 > dotdot ∧ buf.getD (w + 1) '/' ≠ '/' then backtrackScan buf dotdot w else w + 1

/-- The `..` case of `filepath.Clean` when it can backtrack:
`out.w--` followed by the scan back to the previous separator.  The buffer
`out` is the written part `buf[0:w]` of Go's `lazybuf`. -/
def backtrack (out : GoString) (dotdot : Nat) : GoString :=
  out.take (backtrackScan out dotdot (out.length - 1))

/-- The main loop `for r < n { switch ... }` of `filepath.Clean`.  `rest` is
`path[r:]`, `out` the bytes written so far.  Every iteration consumes at
least one byte of `rest`, so a fuel of `len(path)` iterations is enough;
`none` is returned only when the fuel runs out. -/
def cleanLoop (rooted : Bool) : Nat → GoString → GoString → Nat → Option GoString
  | _, [], out, _ => some out
  | 0, _ :: _, _, _ => none
  | fuel + 1, c :: rest, out, dotdot =>
    if c = '/' then
      -- empty path element
      cleanLoop rooted fuel rest out dotdot
    else if c = '.' ∧ (rest = [] ∨ rest.head? = some '/') then
      -- . element
      cleanLoop rooted fuel rest out dotdot
    else if c = '.' ∧ rest.head? = some '.' ∧
        (rest.tail = [] ∨ rest.tail.head? = some '/') then
      -- .. element: remove to last /
      if out.length > dotdot then
        cleanLoop rooted fuel rest.tail (backtrack out dotdot) dotdot
      else if rooted = false then
        let out1 := (if out.length > 0 then out ++ ['/'] else out) ++ ['.', '.']
        cleanLoop rooted fuel rest.tail out1 out1.length
      else
        cleanLoop rooted fuel rest.tail out dotdot
    else
      -- real path element: add slash if needed, copy element
      let out1 :=
        if (rooted = true ∧ out.length ≠ 1) ∨ (rooted = false ∧ out.length ≠ 0)
        then out ++ ['/'] else out
      cleanLoop rooted fuel ((c :: rest).dropWhile (fun b => b ≠ '/'))
        (out1 ++ (c :: rest).takeWhile (fun b => b ≠ '/')) dotdot

/-- Go `filepath.Clean(path)` on Unix. -/
def Clean (path : GoString) : GoString :=
  if path = [] then ['.']
  else
    let rooted : Bool := path.head? = some '/'
    let out :=
      if rooted then (cleanLoop true path.length path.tail ['/'] 1).getD []
      else (cleanLoop false path.length path [] 0).getD []
    -- Turn empty string into "."
    if out.length = 0 then ['.'] else out

/-- Go `filepath.Join(elem...)` on Unix: empty leading elements are skipped,
the rest is joined with the separator and cleaned; with no non-empty element
the result is the empty string. -/
def filepathJoin : List GoString → GoString
  | [] => []
  | e :: es => if e ≠ [] then Clean (stringsJoin (e :: es) ['/']) else filepathJoin es

/-! ## The operating system -/

/-- The `syscall.Errno` values the model distinguishes. -/
inductive Errno
  | ENOENT | EACCES | ENOMEM | ENOSPC | EMFILE | EROFS | EBADF
  deriving DecidableEq

/-- Go `syscall.Errno.Error()`: the text of the error number. -/
def Errno.Error : Errno → GoString
  | .ENOENT => "no such file or directory".toList
  | .EACCES => "permission denied".toList
  | .ENOMEM => "cannot allocate memory".toList
  | .ENOSPC => "no space left on device".toList
  | .EMFILE => "too many open files".toList
  | .EROFS => "read-only file system".toList
  | .EBADF => "bad file descriptor".toList

/-- Go `*fs.PathError`, the error value every `os` call below returns. -/
structure PathError where
  Op : GoString
  Path : GoString
  Err : Errno
  deriving DecidableEq

/-- Go `(*PathError).Error()`: `e.Op + " " + e.Path + ": " + e.Err.Error()`. -/
def PathError.Error (e : PathError) : GoString :=
  e.Op ++ " ".toList ++ e.Path ++ ": ".toList ++ e.Err.Error

/-- Go `os.IsNotExist(err)`; a nil error is not a not-exist error. -/
def osIsNotExist : Option PathError → Bool
  | some e => e.Err = Errno.ENOENT
  | none => false

/-- Go `fmt.Errorf(format + "%v", err)` for a format without other verbs:
the message is the format text followed by `err.Error()`.  The resulting Go
error is represented by its message. -/
def fmtErrorf (format : GoString) (err : PathError) : GoString :=
  format ++ err.Error

/-- The five I/O steps of `HideFolder`. -/
inductive Step
  | stat | create | read | openAppend | write
  deriving DecidableEq

/-- One performed I/O step with its outcome: `none` when the call returned a
nil error, otherwise the error it returned. -/
abbrev Event := Step × Option PathError

/-- A file: its bytes and its permission bits. -/
structure File where
  data : GoString
  perm : Nat
  deriving DecidableEq

/-- The flags of `os.OpenFile` that matter here.  `O_RDWR` is `rd` and `wr`,
`O_WRONLY` is `wr` alone. -/
structure OpenFlags where
  rd : Bool
  wr : Bool
  append : Bool
  create : Bool
  trunc : Bool
  deriving DecidableEq

/-- Go `os.O_RDWR|os.O_CREATE|os.O_TRUNC`. -/
def O_RDWR_CREATE_TRUNC : OpenFlags :=
  { rd := true, wr := true, append := false, create := true, trunc := true }

/-- Go `os.O_APPEND|os.O_WRONLY`. -/
def O_APPEND_WRONLY : OpenFlags :=
  { rd := false, wr := true, append := true, create := false, trunc := false }

/-- An open file handle (`*os.File`). -/
structure Handle where
  fd : Nat
  name : GoString
  flag : OpenFlags
  deriving DecidableEq

/-- The phase of `os.ReadFile` in which an injected failure strikes: while the
file is opened or while its bytes are read. -/
inductive ReadPhase
  | opening | reading
  deriving DecidableEq

/-- The `Op` field of the error `os.ReadFile` returns for a failure in the phase. -/
def ReadPhase.Op : ReadPhase → GoString
  | .opening => "open".toList
  | .reading => "read".toList

/-- Failures that do not follow from the modelled state (a failing disk, an
exhausted descriptor table, an unsearchable directory, ...), one per I/O
step.  A failing write reports the number of bytes it wrote before failing.
A stat failure injected here is never a not-exist error: whether the file
exists is part of the state. -/
structure Faults where
  stat : Option { e : Errno // e ≠ Errno.ENOENT }
  create : Option Errno
  read : Option (ReadPhase × Errno)
  openAppend : Option Errno
  write : Option (Nat × Errno)

/-- No injected failure. -/
def Faults.none : Faults :=
  { stat := Option.none, create := Option.none, read := Option.none,
    openAppend := Option.none, write := Option.none }

/-- The process environment: the value of `HOME` (empty when unset), the
umask, and the injected failures. -/
structure Env where
  home : GoString
  umask : Nat
  faults : Faults

/-- The world the program acts on: the files by path, the open handles, the
next free descriptor, and the log of the I/O steps performed so far.  The
process is the unprivileged owner of every file, so only the owner
permission bits are checked. -/
structure World where
  files : GoString → Option File
  handles : List Handle
  nextFd : Nat
  log : List Event

/-- The mode a file is created with: the requested mode filtered by the umask. -/
def applyUmask (perm umask : Nat) : Nat :=
  perm &&& (0o777 ^^^ (umask &&& 0o777))

/-- The owner may read the file. -/
def File.ownerReadable (f : File) : Bool := f.perm &&& 0o400 ≠ 0

/-- The owner may write the file. -/
def File.ownerWritable (f : File) : Bool := f.perm &&& 0o200 ≠ 0

/-- Replace the file at `name`. -/
def World.setFile (w : World) (name : GoString) (f : File) : World :=
  { w with files := fun p => if p = name then some f else w.files p }

/-- Append an event to the log. -/
def World.record (w : World) (s : Step) (r : Option PathError) : World :=
  { w with log := w.log ++ [(s, r)] }

/-- Go `os.Stat(name)`; the `FileInfo` is dropped by the caller and not modelled. -/
def osStat (env : Env) (w : World) (name : GoString) : World × Option PathError :=
  let r : Option Errno :=
    match env.faults.stat with
    | some e => some e.1
    | Option.none => if (w.files name).isSome then Option.none else some Errno.ENOENT
  let err : Option PathError := r.map (fun e => { Op := "stat".toList, Path := name, Err := e })
  (w.record Step.stat err, err)

/-- Go `os.OpenFile(name, flag, perm)`, logged as `step` and subject to the
injected failure `fault`.  `perm` is used only when the call creates the file. -/
def openFile (step : Step) (fault : Option Errno) (umask : Nat) (w : World)
    (name : GoString) (flag : OpenFlags) (perm : Nat) : World × Except PathError Handle :=
  let fail (e : Errno) : World × Except PathError Handle :=
    let err : PathError := { Op := "open".toList, Path := name, Err := e }
    (w.record step (some err), Except.error err)
  let succeed (w1 : World) : World × Except PathError Handle :=
    let h : Handle := { fd := w1.nextFd, name := name, flag := flag }
    (({ w1 with handles := w1.handles ++ [h], nextFd := w1.nextFd + 1 } : World).record step
      Option.none, Except.ok h)
  match fault with
  | some e => fail e
  | Option.none =>
    match w.files name with
    | Option.none =>
      if flag.create then succeed (w.setFile name { data := [], perm := applyUmask perm umask })
      else fail Errno.ENOENT
    | some f =>
      if (flag.rd ∧ f.ownerReadable = false) ∨ (flag.wr ∧ f.ownerWritable = false) then
        fail Errno.EACCES
      else if flag.trunc then succeed (w.setFile name { f with data := [] })
      else succeed w

/-- Go `os.Create(name)`, which is `OpenFile(name, O_RDWR|O_CREATE|O_TRUNC, 0666)`. -/
def osCreate (env : Env) (w : World) (name : GoString) : World × Except PathError Handle :=
  openFile Step.create env.faults.create env.umask w name O_RDWR_CREATE_TRUNC 0o666

/-- Go `os.OpenFile(name, flag, perm)` as called for the append. -/
def osOpenFile (env : Env) (w : World) (name : GoString) (flag : OpenFlags) (perm : Nat) :
    World × Except PathError Handle :=
  openFile Step.openAppend env.faults.openAppend env.umask w name flag perm

/-- Go `os.ReadFile(name)`: it opens the file, reads it to the end and closes
it again before it returns. -/
def osReadFile (env : Env) (w : World) (name : GoString) : World × Except PathError GoString :=
  let fail (ph : ReadPhase) (e : Errno) : World × Except PathError GoString :=
    let err : PathError := { Op := ph.Op, Path := name, Err := e }
    (w.record Step.read (some err), Except.error err)
  match env.faults.read with
  | some (ph, e) => fail ph e
  | Option.none =>
    match w.files name with
    | Option.none => fail ReadPhase.opening Errno.ENOENT
    | some f =>
      if f.ownerReadable then (w.record Step.read Option.none, Except.ok f.data)
      else fail ReadPhase.opening Errno.EACCES

/-- Go `(*os.File).WriteString(s)`.  Through an `O_APPEND` handle the bytes go
to the end of the file; otherwise they overwrite from offset 0, the position
of a freshly opened handle. -/
def fileWriteString (env : Env) (w : World) (h : Handle) (s : GoString) :
    World × Nat × Option PathError :=
  let put (w : World) (bytes : GoString) : World :=
    match w.files h.name with
    | some f =>
      w.setFile h.name
        { f with data := if h.flag.append then f.data ++ bytes
                         else bytes ++ f.data.drop bytes.length }
    | Option.none => w
  let fail (w : World) (n : Nat) (e : Errno) : World × Nat × Option PathError :=
    let err : PathError := { Op := "write".toList, Path := h.name, Err := e }
    (w.record Step.write (some err), n, some err)
  if h ∈ w.handles ∧ h.flag.wr then
    match env.faults.write with
    | some (n, e) => fail (put w (s.take n)) (min n s.length) e
    | Option.none => ((put w s).record Step.write Option.none, s.length, Option.none)
  else fail w 0 Errno.EBADF

/-- Go `(*os.File).Close()`: the handle is released. -/
def fileClose (w : World) (h : Handle) : World :=
  { w with handles := w.handles.filter (fun k => k.fd ≠ h.fd) }

/-! ## `package filesystem` -/

/-- Go `type FileManager struct { EncryptedDir string }`. -/
structure FileManager where
  EncryptedDir : GoString
  deriving DecidableEq

/-- Go `NewFileManager(homeDir)`. -/
def NewFileManager (homeDir : GoString) : FileManager :=
  { EncryptedDir := filepathJoin [homeDir, "Encrypted".toList] }

/-- The path `hiddenFile := filepath.Join(os.Getenv("HOME"), ".hidden")`. -/
def hiddenFile (env : Env) : GoString :=
  filepathJoin [env.home, ".hidden".toList]

/-- Lines 30 to 47 of `HideFolder`: read the control file and append the
entry when the text does not contain it.  The deferred `f.Close()` runs on
both exits taken after the open succeeded. -/
def readAndAppend (env : Env) (w : World) (hiddenFile : GoString) : World × Option GoString :=
  match osReadFile env w hiddenFile with
  | (w, Except.error err) => (w, some (fmtErrorf "failed to read .hidden file: ".toList err))
  | (w, Except.ok content) =>
    if !stringsContains content "Encrypted\n".toList then
      match osOpenFile env w hiddenFile O_APPEND_WRONLY 0o600 with
      | (w, Except.error err) => (w, some (fmtErrorf "failed to open .hidden file: ".toList err))
      | (w, Except.ok f) =>
        match fileWriteString env w f "Encrypted\n".toList with
        | (w, _, some err) =>
          (fileClose w f, some (fmtErrorf "failed to write to .hidden file: ".toList err))
        | (w, _, Option.none) => (fileClose w f, Option.none)
    else (w, Option.none)

/-- Go `(fm *FileManager).HideFolder()`.  The result is the world after the
call and the returned error (`none` for nil), an error being its message. -/
def HideFolder (_fm : FileManager) (env : Env) (w : World) : World × Option GoString :=
  let hiddenFile := filepathJoin [env.home, ".hidden".toList]
  match osStat env w hiddenFile with
  | (w, err) =>
    if osIsNotExist err then
      match osCreate env w hiddenFile with
      | (w, Except.error err) =>
        (w, some (fmtErrorf "failed to create .hidden file: ".toList err))
      | (w, Except.ok _) => readAndAppend env w hiddenFile
    else readAndAppend env w hiddenFile

/-- The world after `n` sequential calls of `HideFolder`, whatever each returns. -/
def HideFolderN (fm : FileManager) (env : Env) : Nat → World → World
  | 0, w => w
  | n + 1, w => HideFolderN fm env n (HideFolder fm env w).1

/-! ## Vocabulary of the properties -/

/-- The step did what it was called for.  A stat that reports the file
absent is a successful existence check. -/
def Event.succeeded : Event → Bool
  | (_, Option.none) => true
  | (Step.stat, some err) => err.Err = Errno.ENOENT
  | _ => false

/-- The events logged between the world `w` and the later world `w1`. -/
def newEvents (w w1 : World) : List Event :=
  w1.log.drop w.log.length

/-- Every I/O step performed between `w` and `w1` succeeded. -/
def AllStepsSucceed (w w1 : World) : Prop :=
  ∀ e ∈ newEvents w w1, e.succeeded = true

instance AllStepsSucceed.decidable (w w1 : World) : Decidable (AllStepsSucceed w w1) := by
  unfold AllStepsSucceed; infer_instance

/-- The content of the file at `name`, if it exists. -/
def World.content (w : World) (name : GoString) : Option GoString :=
  (w.files name).map File.data

/-- The lines of a text of newline-terminated entries: the pieces between
newlines, the piece after the last newline left out when it is empty. -/
def entries (text : GoString) : List GoString :=
  let parts := text.splitOn '\n'
  if parts.getLast? = some [] then parts.dropLast else parts

/-- A path element that `filepath.Clean` copies unchanged: not empty, without
a separator, and neither `.` nor `..`. -/
def PlainComponent (c : GoString) : Prop :=
  c ≠ [] ∧ '/' ∉ c ∧ c ≠ ['.'] ∧ c ≠ ['.', '.']

instance PlainComponent.decidable (c : GoString) : Decidable (PlainComponent c) := by
  unfold PlainComponent; infer_instance

/-- The path elements `comps`, each preceded by a separator: `/c1/c2/...`. -/
def slashed (comps : List GoString) : GoString :=
  (comps.map (fun c => '/' :: c)).flatten

/-- A world for the examples: the given files, no open handle. -/
def mkWorld (fs : List (GoString × File)) : World :=
  { files := fun p => (fs.find? (fun e => e.1 = p)).map Prod.snd,
    handles := [], nextFd := 3, log := [] }

/-- An environment for the examples: `HOME=/home/u`, umask 022. -/
def mkEnv (faults : Faults) : Env :=
  { home := "/home/u".toList, umask := 0o022, faults := faults }

/-- The environment of the examples with no injected failure. -/
def envPlain : Env := mkEnv Faults.none

/-- The environment of the examples in which the stat fails for lack of kernel memory. -/
def envStatFails : Env :=
  mkEnv { Faults.none with stat := some ⟨Errno.ENOMEM, by decide⟩ }

/-- The environment of the examples in which the create fails: descriptor table full. -/
def envCreateFails : Env :=
  mkEnv { Faults.none with create := some Errno.EMFILE }

/-- The file manager of the examples, `NewFileManager("/home/u")`. -/
def exampleFM : FileManager := NewFileManager "/home/u".toList

/-- No control file. -/
def worldEmpty : World := mkWorld []

/-- The control file holds `Other` and the entry, mode 0644. -/
def worldMarked : World :=
  mkWorld [("/home/u/.hidden".toList, { data := "Other\nEncrypted\n".toList, perm := 0o644 })]

/-- The control file holds the entry but its owner may not read it, mode 000. -/
def worldUnreadable : World :=
  mkWorld [("/home/u/.hidden".toList, { data := "Encrypted\n".toList, perm := 0o000 })]

/-- The control file holds the line `Other`, mode 0644. -/
def worldOther : World :=
  mkWorld [("/home/u/.hidden".toList, { data := "Other\n".toList, perm := 0o644 })]

/-- The control file holds the line `Other` and is read-only, mode 0444. -/
def worldReadOnly : World :=
  mkWorld [("/home/u/.hidden".toList, { data := "Other\n".toList, perm := 0o444 })]

/-- The control file holds `Other` without a final newline, mode 0644. -/
def worldNoNewline : World :=
  mkWorld [("/home/u/.hidden".toList, { data := "Other".toList, perm := 0o644 })]

/-- The control file holds the line `NotEncrypted`, mode 0644. -/
def worldSuffix : World :=
  mkWorld [("/home/u/.hidden".toList, { data := "NotEncrypted\n".toList, perm := 0o644 })]

/-! ## `strings.Contains` -/

/-- The model of `strings.Contains` decides the infix relation on byte sequences. -/
theorem stringsContains_iff (s sub : GoString) :
    stringsContains s sub = true ↔ sub <:+: s := by
  induction s with
  | nil => simp [stringsContains, List.isEmpty_iff]
  | cons c s ih => simp [stringsContains, ih, List.infix_cons_iff]

/-- A text that ends in `s` contains `s`. -/
theorem stringsContains_append_self (c s : GoString) : stringsContains (c ++ s) s = true :=
  (stringsContains_iff _ _).2 (List.suffix_append c s).isInfix

/-! ## `filepath.Clean` and `filepath.Join` -/

/-- The loop of `filepath.Clean` ends within `len(rest)` iterations: the fuel
`Clean` gives it is never exhausted. -/
theorem cleanLoop_isSome (rooted : Bool) (fuel : Nat) :
    ∀ (rest out : GoString) (dotdot : Nat), rest.length ≤ fuel →
      (cleanLoop rooted fuel rest out dotdot).isSome = true := by
  induction fuel with
  | zero =>
    intro rest out dotdot h
    cases rest with
    | nil => simp [cleanLoop]
    | cons c rest => simp at h
  | succ n ih =>
    intro rest out dotdot h
    cases rest with
    | nil => simp [cleanLoop]
    | cons c rest =>
      have h1 : rest.length ≤ n := by simpa using h
      have h2 : rest.tail.length ≤ n := by
        have := List.length_tail rest
        omega
      by_cases hc : c = '/'
      · rw [cleanLoop, if_pos hc]
        exact ih _ _ _ h1
      · have h3 : ((c :: rest).dropWhile (fun b => decide (b ≠ '/'))).length ≤ n := by
          rw [List.dropWhile_cons_of_pos (by simpa using hc)]
          exact le_trans (List.dropWhile_sublist _).length_le h1
        rw [cleanLoop]
        split_ifs <;> first | exact ih _ _ _ h1 | exact ih _ _ _ h2 | exact ih _ _ _ h3

/-- Both calls of the loop made by `Clean` return a buffer. -/
theorem Clean_loop_returns (path : GoString) :
    (cleanLoop true path.length path.tail ['/'] 1).isSome = true ∧
      (cleanLoop false path.length path [] 0).isSome = true :=
  ⟨cleanLoop_isSome true _ _ _ _ (by have := List.length_tail path; omega),
    cleanLoop_isSome false _ _ _ _ (le_refl _)⟩

/-- Copying a path element: up to the next separator the bytes are the element. -/
theorem takeWhile_component (c rest : GoString) (hc : '/' ∉ c)
    (hrest : rest = [] ∨ rest.head? = some '/') :
    (c ++ rest).takeWhile (fun b => decide (b ≠ '/')) = c ∧
      (c ++ rest).dropWhile (fun b => decide (b ≠ '/')) = rest := by
  induction c with
  | nil =>
    rcases hrest with rfl | h
    · simp
    · cases rest with
      | nil => simp
      | cons a rest =>
        simp at h
        subst h
        simp
  | cons a c ih =>
    have ha : a ≠ '/' := fun h => hc (by simp [h])
    have hc1 : '/' ∉ c := fun h => hc (List.mem_cons_of_mem _ h)
    obtain ⟨h1, h2⟩ := ih hc1
    rw [List.cons_append, List.takeWhile_cons_of_pos (by simpa using ha),
      List.dropWhile_cons_of_pos (by simpa using ha), h1, h2]
    exact ⟨rfl, rfl⟩

/-- One iteration of the loop on a separator: the empty element is skipped. -/
theorem cleanLoop_slash (rooted : Bool) (fuel : Nat) (rest out : GoString) (dotdot : Nat) :
    cleanLoop rooted (fuel + 1) ('/' :: rest) out dotdot =
      cleanLoop rooted fuel rest out dotdot := by
  simp [cleanLoop]

/-- One iteration of the loop on a plain element: it is copied, after a
separator when the buffer already holds an element. -/
theorem cleanLoop_plain (rooted : Bool) (fuel : Nat) (c rest out : GoString) (dotdot : Nat)
    (hc : PlainComponent c) (hrest : rest = [] ∨ rest.head? = some '/') :
    cleanLoop rooted (fuel + 1) (c ++ rest) out dotdot =
      cleanLoop rooted fuel rest
        ((if (rooted = true ∧ out.length ≠ 1) ∨ (rooted = false ∧ out.length ≠ 0)
          then out ++ ['/'] else out) ++ c) dotdot := by
  obtain ⟨hne, hslash, hdot, hdotdot⟩ := hc
  obtain ⟨htake, hdrop⟩ := takeWhile_component c rest hslash hrest
  cases c with
  | nil => exact absurd rfl hne
  | cons a c =>
    have ha : a ≠ '/' := fun h => hslash (by simp [h])
    have hc1 : '/' ∉ c := fun h => hslash (List.mem_cons_of_mem _ h)
    rw [List.cons_append] at htake hdrop ⊢
    rw [cleanLoop, if_neg ha, if_neg, if_neg, htake, hdrop]
    · rintro ⟨rfl, h1, h2⟩
      cases c with
      | nil =>
        rcases hrest with rfl | h
        · simp at h1
        · simp [h] at h1
      | cons b c =>
        simp at h1
        subst h1
        cases c with
        | nil => exact hdotdot rfl
        | cons d c =>
          have hd : d ≠ '/' := fun h => hc1 (by simp [h])
          simp [hd] at h2
    · rintro ⟨rfl, h1⟩
      cases c with
      | nil => exact hdot rfl
      | cons b c =>
        have hb : b ≠ '/' := fun h => hc1 (by simp [h])
        simp [hb] at h1

/-- What follows a path element is the end of the path or a separator. -/
theorem slashed_head (cs : List GoString) :
    slashed cs = [] ∨ (slashed cs).head? = some '/' := by
  cases cs with
  | nil => exact Or.inl rfl
  | cons c cs => exact Or.inr (by simp [slashed])

/-- Unfolding `slashed` at the first element. -/
theorem slashed_cons (c : GoString) (cs : List GoString) :
    slashed (c :: cs) = '/' :: (c ++ slashed cs) := by
  simp [slashed]

/-- Unfolding `slashed` at the last element. -/
theorem slashed_append (cs : List GoString) (x : GoString) :
    slashed (cs ++ [x]) = slashed cs ++ '/' :: x := by
  simp [slashed]

/-- Joining with the separator: the first element, then the others each after a separator. -/
theorem stringsJoin_cons (c : GoString) (cs : List GoString) :
    stringsJoin (c :: cs) ['/'] = c ++ slashed cs := by
  induction cs generalizing c with
  | nil => simp [stringsJoin, List.intercalate, slashed]
  | cons d cs ih =>
    have h := ih d
    simp only [stringsJoin, List.intercalate, List.intersperse, List.flatten] at h ⊢
    rw [h, slashed_cons]
    simp

/-- The loop copies a run of plain elements to the buffer as it stands. -/
theorem cleanLoop_slashed (rooted : Bool) (dotdot : Nat) (cs : List GoString)
    (hcs : ∀ x ∈ cs, PlainComponent x) :
    ∀ (fuel : Nat) (out : GoString), (slashed cs).length ≤ fuel →
      ((rooted = true ∧ out.length ≠ 1) ∨ (rooted = false ∧ out.length ≠ 0)) →
      cleanLoop rooted fuel (slashed cs) out dotdot = some (out ++ slashed cs) := by
  induction cs with
  | nil =>
    intro fuel out _ _
    cases fuel <;> simp [slashed, cleanLoop]
  | cons c cs ih =>
    intro fuel out hfuel hout
    have hc := hcs c (List.mem_cons_self _ _)
    have hlen : 1 ≤ c.length := List.length_pos.2 hc.1
    rw [slashed_cons] at hfuel ⊢
    simp only [List.length_cons, List.length_append] at hfuel
    obtain ⟨f, rfl⟩ : ∃ f, fuel = f + 2 := ⟨fuel - 2, by omega⟩
    rw [cleanLoop_slash, cleanLoop_plain rooted f c (slashed cs) out dotdot hc (slashed_head cs),
      if_pos hout, ih (fun x hx => hcs x (List.mem_cons_of_mem _ hx)) f _ (by omega)]
    · simp
    · have h2 : (out ++ ['/'] ++ c).length ≠ 1 ∧ (out ++ ['/'] ++ c).length ≠ 0 := by
        simp only [List.length_append, List.length_singleton]
        omega
      cases rooted
      · exact Or.inr ⟨rfl, h2.2⟩
      · exact Or.inl ⟨rfl, h2.1⟩

/-- A rooted path of plain elements is left as it is by `Clean`. -/
theorem Clean_rooted (c : GoString) (cs : List GoString) (hc : PlainComponent c)
    (hcs : ∀ x ∈ cs, PlainComponent x) :
    Clean ('/' :: (c ++ slashed cs)) = '/' :: (c ++ slashed cs) := by
  have hlen : 1 ≤ c.length := List.length_pos.2 hc.1
  have h1 : cleanLoop true ('/' :: (c ++ slashed cs)).length (c ++ slashed cs) ['/'] 1 =
      some ('/' :: (c ++ slashed cs)) := by
    rw [List.length_cons, cleanLoop_plain true _ c (slashed cs) ['/'] 1 hc (slashed_head cs),
      if_neg (by simp), cleanLoop_slashed true 1 cs hcs _ _ (by simp)]
    · simp
    · left
      refine ⟨rfl, ?_⟩
      simp only [List.length_append, List.length_singleton]
      omega
  simp only [List.length_cons, List.length_append] at h1
  simp [Clean, h1]

/-- A relative path of plain elements is left as it is by `Clean`. -/
theorem Clean_relative (c : GoString) (cs : List GoString) (hc : PlainComponent c)
    (hcs : ∀ x ∈ cs, PlainComponent x) :
    Clean (c ++ slashed cs) = c ++ slashed cs := by
  have hlen : 1 ≤ c.length := List.length_pos.2 hc.1
  have h1 : cleanLoop false (c ++ slashed cs).length (c ++ slashed cs) [] 0 =
      some (c ++ slashed cs) := by
    obtain ⟨f, hf⟩ : ∃ f, (c ++ slashed cs).length = f + 1 :=
      ⟨(c ++ slashed cs).length - 1, by simp only [List.length_append]; omega⟩
    rw [hf, cleanLoop_plain false _ c (slashed cs) [] 0 hc (slashed_head cs),
      if_neg (by simp), cleanLoop_slashed false 0 cs hcs _ _ (by
        simp only [List.length_append] at hf; omega)]
    · simp
    · right
      refine ⟨rfl, ?_⟩
      simp only [List.nil_append]
      omega
  obtain ⟨a, c, rfl⟩ : ∃ a c1, c = a :: c1 := List.exists_cons_of_ne_nil hc.1
  have ha : a ≠ '/' := fun h => hc.2.1 (by simp [h])
  rw [List.cons_append] at h1 ⊢
  simp only [List.length_cons, List.length_append] at h1
  simp [Clean, h1, ha]

/-! ## Logging -/

/-- Logging a step leaves the files as they are. -/
@[simp]
theorem record_files (w : World) (s : Step) (r : Option PathError) :
    (w.record s r).files = w.files := rfl
/-- Logging a step leaves the open handles as they are. -/
@[simp]
theorem record_handles (w : World) (s : Step) (r : Option PathError) :
    (w.record s r).handles = w.handles := rfl
/-- Logging a step leaves the descriptor counter as it is. -/
@[simp]
theorem record_nextFd (w : World) (s : Step) (r : Option PathError) :
    (w.record s r).nextFd = w.nextFd := rfl
/-- Logging a step appends one event. -/
@[simp]
theorem record_log (w : World) (s : Step) (r : Option PathError) :
    (w.record s r).log = w.log ++ [(s, r)] := rfl

/-! ## `HideFolder`: the stat and create phase -/

/-- The body of `HideFolder` at the path `hiddenFile env`. -/
theorem HideFolder_eq (fm : FileManager) (env : Env) (w : World) :
    HideFolder fm env w =
      if osIsNotExist (osStat env w (hiddenFile env)).2 then
        match osCreate env (osStat env w (hiddenFile env)).1 (hiddenFile env) with
        | (w, Except.error err) =>
          (w, some (fmtErrorf "failed to create .hidden file: ".toList err))
        | (w, Except.ok _) => readAndAppend env w (hiddenFile env)
      else readAndAppend env (osStat env w (hiddenFile env)).1 (hiddenFile env) := rfl

/-- The stat fails with something else than not-exist: the create is skipped. -/
theorem HideFolder_stat_fault (fm : FileManager) (env : Env) (w : World)
    (e : { e : Errno // e ≠ Errno.ENOENT }) (hs : env.faults.stat = some e) :
    HideFolder fm env w =
      readAndAppend env
        (w.record Step.stat (some { Op := "stat".toList, Path := hiddenFile env, Err := e.1 }))
        (hiddenFile env) := by
  have h1 : e.1 ≠ Errno.ENOENT := e.2
  rw [HideFolder_eq]
  generalize hiddenFile env = p
  simp [osStat, hs, osIsNotExist, h1]

/-- The stat finds the file: the create is skipped. -/
theorem HideFolder_exists (fm : FileManager) (env : Env) (w : World) (f : File)
    (hs : env.faults.stat = none) (hf : w.files (hiddenFile env) = some f) :
    HideFolder fm env w = readAndAppend env (w.record Step.stat none) (hiddenFile env) := by
  rw [HideFolder_eq]
  generalize hiddenFile env = p at hf ⊢
  simp [osStat, hs, osIsNotExist, hf]

/-- The file is absent and the create fails. -/
theorem HideFolder_create_fault (fm : FileManager) (env : Env) (w : World) (e : Errno)
    (hs : env.faults.stat = none) (hf : w.files (hiddenFile env) = none)
    (hc : env.faults.create = some e) :
    HideFolder fm env w =
      ((w.record Step.stat
            (some { Op := "stat".toList, Path := hiddenFile env, Err := Errno.ENOENT })).record
          Step.create (some { Op := "open".toList, Path := hiddenFile env, Err := e }),
        some (fmtErrorf "failed to create .hidden file: ".toList
          { Op := "open".toList, Path := hiddenFile env, Err := e })) := by
  rw [HideFolder_eq]
  generalize hiddenFile env = p at hf ⊢
  simp [osStat, hs, osIsNotExist, hf, osCreate, openFile, hc]

/-- The file is absent and the create succeeds, leaving its handle open. -/
theorem HideFolder_created (fm : FileManager) (env : Env) (w : World)
    (hs : env.faults.stat = none) (hf : w.files (hiddenFile env) = none)
    (hc : env.faults.create = none) :
    HideFolder fm env w =
      readAndAppend env
        { files := fun p => if p = hiddenFile env then
            some { data := [], perm := applyUmask 0o666 env.umask } else w.files p,
          handles := w.handles ++
            [{ fd := w.nextFd, name := hiddenFile env, flag := O_RDWR_CREATE_TRUNC }],
          nextFd := w.nextFd + 1,
          log := w.log ++
            [(Step.stat, some { Op := "stat".toList, Path := hiddenFile env, Err := Errno.ENOENT }),
              (Step.create, none)] }
        (hiddenFile env) := by
  rw [HideFolder_eq]
  generalize hiddenFile env = p at hf ⊢
  simp [osStat, hs, osIsNotExist, hf, osCreate, openFile, hc,
    O_RDWR_CREATE_TRUNC, World.setFile, World.record]

/-! ## `HideFolder`: the read and append phase -/

/-- The read fails for a reason outside the modelled state. -/
theorem readAndAppend_read_fault (env : Env) (w : World) (p : GoString) (ph : ReadPhase)
    (e : Errno) (hr : env.faults.read = some (ph, e)) :
    readAndAppend env w p =
      (w.record Step.read (some { Op := ph.Op, Path := p, Err := e }),
        some (fmtErrorf "failed to read .hidden file: ".toList
          { Op := ph.Op, Path := p, Err := e })) := by
  simp [readAndAppend, osReadFile, hr]

/-- The read of an absent file fails. -/
theorem readAndAppend_absent (env : Env) (w : World) (p : GoString)
    (hr : env.faults.read = none) (hf : w.files p = none) :
    readAndAppend env w p =
      (w.record Step.read (some { Op := "open".toList, Path := p, Err := Errno.ENOENT }),
        some (fmtErrorf "failed to read .hidden file: ".toList
          { Op := "open".toList, Path := p, Err := Errno.ENOENT })) := by
  simp [readAndAppend, osReadFile, hr, hf, ReadPhase.Op]

/-- The read of a file its owner may not read fails. -/
theorem readAndAppend_unreadable (env : Env) (w : World) (p : GoString) (f : File)
    (hr : env.faults.read = none) (hf : w.files p = some f) (hp : f.ownerReadable = false) :
    readAndAppend env w p =
      (w.record Step.read (some { Op := "open".toList, Path := p, Err := Errno.EACCES }),
        some (fmtErrorf "failed to read .hidden file: ".toList
          { Op := "open".toList, Path := p, Err := Errno.EACCES })) := by
  simp [readAndAppend, osReadFile, hr, hf, hp, ReadPhase.Op]

/-- The text contains the entry: nothing more is done. -/
theorem readAndAppend_contains (env : Env) (w : World) (p : GoString) (f : File)
    (hr : env.faults.read = none) (hf : w.files p = some f) (hp : f.ownerReadable = true)
    (hc : stringsContains f.data "Encrypted\n".toList = true) :
    readAndAppend env w p = (w.record Step.read none, none) := by
  unfold readAndAppend
  generalize "Encrypted\n".toList = entry at hc ⊢
  simp [osReadFile, hr, hf, hp, hc]

/-- The open for append fails for a reason outside the modelled state. -/
theorem readAndAppend_open_fault (env : Env) (w : World) (p : GoString) (f : File) (e : Errno)
    (hr : env.faults.read = none) (hf : w.files p = some f) (hp : f.ownerReadable = true)
    (hc : stringsContains f.data "Encrypted\n".toList = false)
    (ho : env.faults.openAppend = some e) :
    readAndAppend env w p =
      ((w.record Step.read none).record Step.openAppend
          (some { Op := "open".toList, Path := p, Err := e }),
        some (fmtErrorf "failed to open .hidden file: ".toList
          { Op := "open".toList, Path := p, Err := e })) := by
  unfold readAndAppend
  generalize "Encrypted\n".toList = entry at hc ⊢
  simp [osReadFile, hr, hf, hp, hc, osOpenFile, openFile, ho]

/-- The open for append of a file its owner may not write is denied. -/
theorem readAndAppend_unwritable (env : Env) (w : World) (p : GoString) (f : File)
    (hr : env.faults.read = none) (hf : w.files p = some f) (hp : f.ownerReadable = true)
    (hc : stringsContains f.data "Encrypted\n".toList = false)
    (ho : env.faults.openAppend = none) (hw : f.ownerWritable = false) :
    readAndAppend env w p =
      ((w.record Step.read none).record Step.openAppend
          (some { Op := "open".toList, Path := p, Err := Errno.EACCES }),
        some (fmtErrorf "failed to open .hidden file: ".toList
          { Op := "open".toList, Path := p, Err := Errno.EACCES })) := by
  unfold readAndAppend
  generalize "Encrypted\n".toList = entry at hc ⊢
  simp [osReadFile, hr, hf, hp, hc, osOpenFile, openFile, ho, hw, O_APPEND_WRONLY]

/-- The write fails after `n` bytes; the deferred close releases the handle. -/
theorem readAndAppend_write_fault (env : Env) (w : World) (p : GoString) (f : File)
    (n : Nat) (e : Errno)
    (hr : env.faults.read = none) (hf : w.files p = some f) (hp : f.ownerReadable = true)
    (hc : stringsContains f.data "Encrypted\n".toList = false)
    (ho : env.faults.openAppend = none) (hw : f.ownerWritable = true)
    (hx : env.faults.write = some (n, e)) :
    readAndAppend env w p =
      ({ files := fun q => if q = p then
            some { f with data := f.data ++ "Encrypted\n".toList.take n } else w.files q,
         handles := w.handles.filter (fun k => k.fd ≠ w.nextFd),
         nextFd := w.nextFd + 1,
         log := w.log ++ [(Step.read, none), (Step.openAppend, none),
              (Step.write, some { Op := "write".toList, Path := p, Err := e })] },
        some (fmtErrorf "failed to write to .hidden file: ".toList
          { Op := "write".toList, Path := p, Err := e })) := by
  unfold readAndAppend
  generalize "Encrypted\n".toList = entry at hc ⊢
  simp [osReadFile, hr, hf, hp, hc, osOpenFile, openFile, ho, hw, O_APPEND_WRONLY,
    fileWriteString, hx, World.record, World.setFile, fileClose]

/-- The entry is appended; the deferred close releases the handle. -/
theorem readAndAppend_appended (env : Env) (w : World) (p : GoString) (f : File)
    (hr : env.faults.read = none) (hf : w.files p = some f) (hp : f.ownerReadable = true)
    (hc : stringsContains f.data "Encrypted\n".toList = false)
    (ho : env.faults.openAppend = none) (hw : f.ownerWritable = true)
    (hx : env.faults.write = none) :
    readAndAppend env w p =
      ({ files := fun q => if q = p then
            some { f with data := f.data ++ "Encrypted\n".toList } else w.files q,
         handles := w.handles.filter (fun k => k.fd ≠ w.nextFd),
         nextFd := w.nextFd + 1,
         log := w.log ++ [(Step.read, none), (Step.openAppend, none), (Step.write, none)] },
        none) := by
  unfold readAndAppend
  generalize "Encrypted\n".toList = entry at hc ⊢
  simp [osReadFile, hr, hf, hp, hc, osOpenFile, openFile, ho, hw, O_APPEND_WRONLY,
    fileWriteString, hx, World.record, World.setFile, fileClose]


/-- Every way `readAndAppend` can run, with the world and error it ends in. -/
theorem readAndAppend_cases (env : Env) (w : World) (p : GoString) :
    (∃ err : PathError, err.Path = p ∧
      readAndAppend env w p =
        (w.record Step.read (some err),
          some (fmtErrorf "failed to read .hidden file: ".toList err))) ∨
    (∃ f, w.files p = some f ∧ stringsContains f.data "Encrypted\n".toList = true ∧
      readAndAppend env w p = (w.record Step.read none, none)) ∨
    (∃ f e, w.files p = some f ∧ stringsContains f.data "Encrypted\n".toList = false ∧
      readAndAppend env w p =
        ((w.record Step.read none).record Step.openAppend
          (some { Op := "open".toList, Path := p, Err := e }),
          some (fmtErrorf "failed to open .hidden file: ".toList
            { Op := "open".toList, Path := p, Err := e }))) ∨
    (∃ f n e, w.files p = some f ∧ stringsContains f.data "Encrypted\n".toList = false ∧
      readAndAppend env w p =
        ({ files := fun q => if q = p then
              some { f with data := f.data ++ "Encrypted\n".toList.take n } else w.files q,
           handles := w.handles.filter (fun k => k.fd ≠ w.nextFd),
           nextFd := w.nextFd + 1,
           log := w.log ++ [(Step.read, none), (Step.openAppend, none),
              (Step.write, some { Op := "write".toList, Path := p, Err := e })] },
          some (fmtErrorf "failed to write to .hidden file: ".toList
            { Op := "write".toList, Path := p, Err := e }))) ∨
    (∃ f, w.files p = some f ∧ stringsContains f.data "Encrypted\n".toList = false ∧
      readAndAppend env w p =
        ({ files := fun q => if q = p then
              some { f with data := f.data ++ "Encrypted\n".toList } else w.files q,
           handles := w.handles.filter (fun k => k.fd ≠ w.nextFd),
           nextFd := w.nextFd + 1,
           log := w.log ++ [(Step.read, none), (Step.openAppend, none), (Step.write, none)] },
          none)) := by
  rcases hr : env.faults.read with _ | ⟨ph, e⟩
  · rcases hf : w.files p with _ | f
    · exact Or.inl ⟨_, rfl, readAndAppend_absent env w p hr hf⟩
    · cases hp : f.ownerReadable
      · exact Or.inl ⟨_, rfl, readAndAppend_unreadable env w p f hr hf hp⟩
      · cases hc : stringsContains f.data "Encrypted\n".toList
        · rcases ho : env.faults.openAppend with _ | e
          · cases hw : f.ownerWritable
            · exact Or.inr (Or.inr (Or.inl ⟨f, _, rfl, hc,
                readAndAppend_unwritable env w p f hr hf hp hc ho hw⟩))
            · rcases hx : env.faults.write with _ | ⟨n, e⟩
              · exact Or.inr (Or.inr (Or.inr (Or.inr ⟨f, rfl, hc,
                  readAndAppend_appended env w p f hr hf hp hc ho hw hx⟩)))
              · exact Or.inr (Or.inr (Or.inr (Or.inl ⟨f, n, e, rfl, hc,
                  readAndAppend_write_fault env w p f n e hr hf hp hc ho hw hx⟩)))
          · exact Or.inr (Or.inr (Or.inl ⟨f, e, rfl, hc,
              readAndAppend_open_fault env w p f e hr hf hp hc ho⟩))
        · exact Or.inr (Or.inl ⟨f, rfl, hc, readAndAppend_contains env w p f hr hf hp hc⟩)
  · exact Or.inl ⟨_, rfl, readAndAppend_read_fault env w p ph e hr⟩

/-! ## `HideFolder`: the whole call -/

/-- Every way the stat and create phase of `HideFolder` can run. -/
theorem HideFolder_cases (fm : FileManager) (env : Env) (w : World) :
    (∃ r : Option PathError, (r = none → ∃ f, w.files (hiddenFile env) = some f) ∧
      (∀ err, r = some err → err.Err ≠ Errno.ENOENT) ∧
      HideFolder fm env w = readAndAppend env (w.record Step.stat r) (hiddenFile env)) ∨
    (∃ err : PathError, w.files (hiddenFile env) = none ∧
      HideFolder fm env w =
        ((w.record Step.stat
              (some { Op := "stat".toList, Path := hiddenFile env, Err := Errno.ENOENT })).record
            Step.create (some err),
          some (fmtErrorf "failed to create .hidden file: ".toList err))) ∨
    (w.files (hiddenFile env) = none ∧
      HideFolder fm env w =
        readAndAppend env
          { files := fun p => if p = hiddenFile env then
              some { data := [], perm := applyUmask 0o666 env.umask } else w.files p,
            handles := w.handles ++
              [{ fd := w.nextFd, name := hiddenFile env, flag := O_RDWR_CREATE_TRUNC }],
            nextFd := w.nextFd + 1,
            log := w.log ++
              [(Step.stat,
                  some { Op := "stat".toList, Path := hiddenFile env, Err := Errno.ENOENT }),
                (Step.create, none)] }
          (hiddenFile env)) := by
  rcases hs : env.faults.stat with _ | e
  · rcases hf : w.files (hiddenFile env) with _ | f
    · rcases hc : env.faults.create with _ | e
      · exact Or.inr (Or.inr ⟨rfl, HideFolder_created fm env w hs hf hc⟩)
      · exact Or.inr (Or.inl ⟨_, rfl, HideFolder_create_fault fm env w e hs hf hc⟩)
    · exact Or.inl ⟨none, fun _ => ⟨f, rfl⟩, by simp, HideFolder_exists fm env w f hs hf⟩
  · refine Or.inl ⟨_, by simp, ?_, HideFolder_stat_fault fm env w e hs⟩
    intro err herr
    have h1 : err.Err = e.1 := by
      simp only [Option.some.injEq] at herr
      rw [← herr]
    rw [h1]
    exact e.2

/-- The events of a run whose log is the old log followed by `evs`. -/
theorem newEvents_of_log (w w1 : World) (evs : List Event) (h : w1.log = w.log ++ evs) :
    newEvents w w1 = evs := by
  simp [newEvents, h]

/-- The read and append phase only adds to the log. -/
theorem readAndAppend_log (env : Env) (w : World) (p : GoString) :
    ∃ evs, (readAndAppend env w p).1.log = w.log ++ evs := by
  rcases readAndAppend_cases env w p with
    ⟨e, -, h2⟩ | ⟨f, hf, -, h2⟩ | ⟨f, e, hf, -, h2⟩ | ⟨f, n, e, hf, -, h2⟩ | ⟨f, hf, -, h2⟩ <;>
    rw [h2] <;> simp

/-- One call only adds to the log. -/
theorem HideFolder_log (fm : FileManager) (env : Env) (w : World) :
    ∃ evs, (HideFolder fm env w).1.log = w.log ++ evs := by
  rcases HideFolder_cases fm env w with ⟨r, -, -, h⟩ | ⟨e, -, h⟩ | ⟨-, h⟩
  · obtain ⟨evs, h2⟩ := readAndAppend_log env (w.record Step.stat r) (hiddenFile env)
    exact ⟨_, by rw [h, h2, record_log, List.append_assoc]⟩
  · rw [h]; simp
  · rw [h]
    obtain ⟨evs, h2⟩ := readAndAppend_log env
      { files := fun p => if p = hiddenFile env then
          some { data := [], perm := applyUmask 0o666 env.umask } else w.files p,
        handles := w.handles ++
          [{ fd := w.nextFd, name := hiddenFile env, flag := O_RDWR_CREATE_TRUNC }],
        nextFd := w.nextFd + 1,
        log := w.log ++
          [(Step.stat, some { Op := "stat".toList, Path := hiddenFile env, Err := Errno.ENOENT }),
            (Step.create, none)] } (hiddenFile env)
    exact ⟨_, by rw [h2, List.append_assoc]⟩

/-- Sequential calls only add to the log. -/
theorem HideFolderN_log (fm : FileManager) (env : Env) (n : Nat) (w : World) :
    ∃ evs, (HideFolderN fm env n w).log = w.log ++ evs := by
  induction n generalizing w with
  | zero => exact ⟨[], by simp [HideFolderN]⟩
  | succ n ih =>
    obtain ⟨e1, h1⟩ := HideFolder_log fm env w
    obtain ⟨e2, h2⟩ := ih (HideFolder fm env w).1
    exact ⟨e1 ++ e2, by rw [HideFolderN, h2, h1, List.append_assoc]⟩

/-- The file is absent and every step succeeds: the file is created and holds the entry. -/
theorem run_absent (fm : FileManager) (env : Env) (w : World)
    (habsent : w.files (hiddenFile env) = none)
    (hok : AllStepsSucceed w (HideFolder fm env w).1) :
    (HideFolder fm env w).1.content (hiddenFile env) = some "Encrypted\n".toList ∧
      (HideFolder fm env w).2 = none := by
  unfold AllStepsSucceed at hok
  rcases HideFolder_cases fm env w with ⟨r, hr, hne, h⟩ | ⟨e, -, h⟩ | ⟨-, h⟩
  · cases r with
    | none => obtain ⟨f, hf⟩ := hr rfl; simp [habsent] at hf
    | some err =>
      rw [h] at hok
      have hne1 := hne err rfl
      rcases readAndAppend_cases env (w.record Step.stat (some err)) (hiddenFile env) with
        ⟨e, -, h2⟩ | ⟨f, hf, -, h2⟩ | ⟨f, e, hf, -, h2⟩ | ⟨f, n, e, hf, -, h2⟩ |
        ⟨f, hf, -, h2⟩ <;>
      · rw [h2] at hok
        exfalso
        revert hok
        simp [newEvents, Event.succeeded, hne1]
  · rw [h] at hok
    simp [newEvents, Event.succeeded] at hok
  · rw [h] at hok ⊢
    generalize hiddenFile env = p at *
    rcases readAndAppend_cases env _ p with
      ⟨e, -, h2⟩ | ⟨f, hf, hc, h2⟩ | ⟨f, e, hf, -, h2⟩ | ⟨f, n, e, hf, -, h2⟩ | ⟨f, hf, -, h2⟩ <;>
      rw [h2] at hok ⊢
    · simp [newEvents, Event.succeeded] at hok
    · simp at hf
      subst hf
      simp [stringsContains] at hc
    · simp [newEvents, Event.succeeded] at hok
    · simp [newEvents, Event.succeeded] at hok
    · simp at hf
      subst hf
      simp [World.content]

/-- The file holds the entry: the call changes no file, opens nothing, and
returns nil exactly when its read succeeds. -/
theorem run_marked (fm : FileManager) (env : Env) (w : World) (f : File)
    (hf : w.files (hiddenFile env) = some f)
    (hc : stringsContains f.data "Encrypted\n".toList = true) :
    (HideFolder fm env w).1.files = w.files ∧
      (HideFolder fm env w).1.handles = w.handles ∧
      (∀ r, (Step.openAppend, r) ∉ newEvents w (HideFolder fm env w).1) ∧
      ((HideFolder fm env w).2 = none ↔
        (Step.read, none) ∈ newEvents w (HideFolder fm env w).1) := by
  rcases HideFolder_cases fm env w with ⟨r, -, hne, h⟩ | ⟨e, h0, -⟩ | ⟨h0, -⟩
  · rw [h]
    generalize hiddenFile env = p at *
    rcases readAndAppend_cases env (w.record Step.stat r) p with
      ⟨e, -, h2⟩ | ⟨f1, hf1, -, h2⟩ | ⟨f1, e, hf1, hc1, -⟩ | ⟨f1, n, e, hf1, hc1, -⟩ |
      ⟨f1, hf1, hc1, -⟩
    · rw [h2]; simp [newEvents]
    · rw [h2]; simp [newEvents]
    all_goals
      simp [hf] at hf1
      subst hf1
      rw [hc] at hc1
      cases hc1
  · simp [hf] at h0
  · simp [hf] at h0

/-- The file exists without the entry and every step succeeds: the entry is appended. -/
theorem run_unmarked (fm : FileManager) (env : Env) (w : World) (f : File)
    (hf : w.files (hiddenFile env) = some f)
    (hc : stringsContains f.data "Encrypted\n".toList = false)
    (hok : AllStepsSucceed w (HideFolder fm env w).1) :
    (HideFolder fm env w).1.content (hiddenFile env) = some (f.data ++ "Encrypted\n".toList) ∧
      (HideFolder fm env w).2 = none := by
  unfold AllStepsSucceed at hok
  rcases HideFolder_cases fm env w with ⟨r, -, hne, h⟩ | ⟨e, h0, -⟩ | ⟨h0, -⟩
  · rw [h] at hok ⊢
    generalize hiddenFile env = p at *
    rcases readAndAppend_cases env (w.record Step.stat r) p with
      ⟨e, -, h2⟩ | ⟨f1, hf1, hc1, h2⟩ | ⟨f1, e, hf1, -, h2⟩ | ⟨f1, n, e, hf1, -, h2⟩ |
      ⟨f1, hf1, -, h2⟩ <;> rw [h2] at hok ⊢
    · simp [newEvents, Event.succeeded] at hok
    · simp [hf] at hf1
      subst hf1
      rw [hc] at hc1
      cases hc1
    · simp [newEvents, Event.succeeded] at hok
    · simp [newEvents, Event.succeeded] at hok
    · simp [hf] at hf1
      subst hf1
      simp [World.content]
  · simp [hf] at h0
  · simp [hf] at h0

/-- After a call whose steps all succeed the file exists and holds the entry. -/
theorem run_marks (fm : FileManager) (env : Env) (w : World)
    (hok : AllStepsSucceed w (HideFolder fm env w).1) :
    ∃ f, (HideFolder fm env w).1.files (hiddenFile env) = some f ∧
      stringsContains f.data "Encrypted\n".toList = true := by
  rcases hf : w.files (hiddenFile env) with _ | f
  · have h := (run_absent fm env w hf hok).1
    unfold World.content at h
    rcases hg : (HideFolder fm env w).1.files (hiddenFile env) with _ | g
    · simp [hg] at h
    · rw [hg] at h
      have hd : g.data = "Encrypted\n".toList := by simpa using h
      refine ⟨g, rfl, ?_⟩
      rw [hd]
      exact stringsContains_append_self [] _
  · cases hc : stringsContains f.data "Encrypted\n".toList
    · have h := (run_unmarked fm env w f hf hc hok).1
      unfold World.content at h
      rcases hg : (HideFolder fm env w).1.files (hiddenFile env) with _ | g
      · simp [hg] at h
      · rw [hg] at h
        have hd : g.data = f.data ++ "Encrypted\n".toList := by simpa using h
        refine ⟨g, rfl, ?_⟩
        rw [hd]
        exact stringsContains_append_self _ _
    · exact ⟨f, by rw [(run_marked fm env w f hf hc).1, hf], hc⟩

/-- Once the file holds the entry, further calls change no file. -/
theorem HideFolderN_files (fm : FileManager) (env : Env) (n : Nat) (w : World) (f : File)
    (hf : w.files (hiddenFile env) = some f)
    (hc : stringsContains f.data "Encrypted\n".toList = true) :
    (HideFolderN fm env n w).files = w.files := by
  induction n generalizing w with
  | zero => rfl
  | succ n ih =>
    have h1 := (run_marked fm env w f hf hc).1
    rw [HideFolderN, ih (HideFolder fm env w).1 (by rw [h1, hf]), h1]

/-- The messages of different steps differ, whatever the underlying errors. -/
theorem messages_distinct (e1 e2 : PathError) :
    fmtErrorf "failed to create .hidden file: ".toList e1 ≠
        fmtErrorf "failed to read .hidden file: ".toList e2 ∧
    fmtErrorf "failed to create .hidden file: ".toList e1 ≠
        fmtErrorf "failed to open .hidden file: ".toList e2 ∧
    fmtErrorf "failed to create .hidden file: ".toList e1 ≠
        fmtErrorf "failed to write to .hidden file: ".toList e2 ∧
    fmtErrorf "failed to read .hidden file: ".toList e1 ≠
        fmtErrorf "failed to open .hidden file: ".toList e2 ∧
    fmtErrorf "failed to read .hidden file: ".toList e1 ≠
        fmtErrorf "failed to write to .hidden file: ".toList e2 ∧
    fmtErrorf "failed to open .hidden file: ".toList e1 ≠
        fmtErrorf "failed to write to .hidden file: ".toList e2 := by
  simp [fmtErrorf]

/-- The handle opened for the append is released on every exit: when the
stat does not report the file absent, the open handles after the call are
those before it. -/
theorem run_existing_handles (fm : FileManager) (env : Env) (w : World) (f : File)
    (hfresh : ∀ h ∈ w.handles, h.fd < w.nextFd)
    (hf : w.files (hiddenFile env) = some f) :
    (HideFolder fm env w).1.handles = w.handles := by
  have hkeep : w.handles.filter (fun k => decide (k.fd ≠ w.nextFd)) = w.handles := by
    apply List.filter_eq_self.2
    intro h hh
    have := hfresh h hh
    simp
    omega
  rcases HideFolder_cases fm env w with ⟨r, -, hne, h⟩ | ⟨e, h0, -⟩ | ⟨h0, -⟩
  · rw [h]
    generalize hiddenFile env = p at *
    rcases readAndAppend_cases env (w.record Step.stat r) p with
      ⟨e, -, h2⟩ | ⟨f1, hf1, -, h2⟩ | ⟨f1, e, hf1, -, h2⟩ | ⟨f1, n, e, hf1, -, h2⟩ |
      ⟨f1, hf1, -, h2⟩ <;> rw [h2] <;> simp
    · simpa using hkeep
    · simpa using hkeep
  · simp [hf] at h0
  · simp [hf] at h0

/-- The handle returned by the create is never released: when the file is
absent and the create succeeds, it is still open after the call, on every
exit. -/
theorem run_created_handle (fm : FileManager) (env : Env) (w : World)
    (hfresh : ∀ h ∈ w.handles, h.fd < w.nextFd)
    (habsent : w.files (hiddenFile env) = none)
    (hs : env.faults.stat = none) (hc : env.faults.create = none) :
    (HideFolder fm env w).1.handles =
      w.handles ++ [{ fd := w.nextFd, name := hiddenFile env, flag := O_RDWR_CREATE_TRUNC }] := by
  rw [HideFolder_created fm env w hs habsent hc]
  generalize hiddenFile env = p at *
  have hkeep : List.filter (fun k : Handle => decide (k.fd ≠ w.nextFd + 1))
      (w.handles ++ [{ fd := w.nextFd, name := p, flag := O_RDWR_CREATE_TRUNC }]) =
      w.handles ++ [{ fd := w.nextFd, name := p, flag := O_RDWR_CREATE_TRUNC }] := by
    apply List.filter_eq_self.2
    intro h hh
    rcases List.mem_append.1 hh with h1 | h1
    · have := hfresh h h1
      simp
      omega
    · rw [List.mem_singleton.1 h1]
      simp
  rcases readAndAppend_cases env _ p with
    ⟨e, -, h2⟩ | ⟨f1, hf1, -, h2⟩ | ⟨f1, e, hf1, -, h2⟩ | ⟨f1, n, e, hf1, -, h2⟩ |
    ⟨f1, hf1, -, h2⟩ <;> rw [h2] <;> simp
  · simpa using hkeep
  · simpa using hkeep

/-! ## The properties of `HideFolder` -/

/-- C1: when the control file does not exist and every I/O step succeeds,
after one call of `HideFolder` the control file exists, its content is
exactly the bytes `Encrypted\n`, and the call returns nil. -/
theorem HideFolder_creates_entry (fm : FileManager) (env : Env) (w : World)
    (habsent : w.files (hiddenFile env) = none)
    (hok : AllStepsSucceed w (HideFolder fm env w).1) :
    (HideFolder fm env w).1.content (hiddenFile env) = some "Encrypted\n".toList ∧
      (HideFolder fm env w).2 = none :=
  run_absent fm env w habsent hok

/-- C1 at `HOME=/home/u` without a control file and without a failing step. -/
theorem HideFolder_creates_entry_witness :
    worldEmpty.files (hiddenFile envPlain) = none ∧
      AllStepsSucceed worldEmpty (HideFolder exampleFM envPlain worldEmpty).1 ∧
      (HideFolder exampleFM envPlain worldEmpty).1.content (hiddenFile envPlain) =
        some "Encrypted\n".toList ∧
      (HideFolder exampleFM envPlain worldEmpty).2 = none :=
  ⟨by decide, by decide,
    HideFolder_creates_entry exampleFM envPlain worldEmpty (by decide) (by decide)⟩

/-- C2 as stated fails: the control file exists and contains `Encrypted\n`,
but its owner may not read it (mode 000); the call returns the read error
and not nil. -/
theorem HideFolder_unreadable_not_nil :
    worldUnreadable.content (hiddenFile envPlain) = some "Encrypted\n".toList ∧
      stringsContains "Encrypted\n".toList "Encrypted\n".toList = true ∧
      (HideFolder exampleFM envPlain worldUnreadable).2 =
        some "failed to read .hidden file: open /home/u/.hidden: permission denied".toList ∧
      (HideFolder exampleFM envPlain worldUnreadable).2 ≠ none := by
  decide

/-- C2 amended: when the control file exists and its content contains
`Encrypted\n`, one call of `HideFolder` leaves every file byte for byte as it
was, opens no handle, never performs the open-for-append step, and returns
nil exactly when its read step succeeds. -/
theorem HideFolder_keeps_marked_file (fm : FileManager) (env : Env) (w : World) (f : File)
    (hf : w.files (hiddenFile env) = some f)
    (hc : stringsContains f.data "Encrypted\n".toList = true) :
    (HideFolder fm env w).1.files = w.files ∧
      (HideFolder fm env w).1.handles = w.handles ∧
      (∀ r, (Step.openAppend, r) ∉ newEvents w (HideFolder fm env w).1) ∧
      ((HideFolder fm env w).2 = none ↔
        (Step.read, none) ∈ newEvents w (HideFolder fm env w).1) :=
  run_marked fm env w f hf hc

/-- C2 amended at a control file holding `Other\nEncrypted\n`. -/
theorem HideFolder_keeps_marked_file_witness :
    worldMarked.files (hiddenFile envPlain) =
        some { data := "Other\nEncrypted\n".toList, perm := 0o644 } ∧
      (HideFolder exampleFM envPlain worldMarked).1.files = worldMarked.files ∧
      (HideFolder exampleFM envPlain worldMarked).2 = none :=
  have h := HideFolder_keeps_marked_file exampleFM envPlain worldMarked
    { data := "Other\nEncrypted\n".toList, perm := 0o644 } (by decide) (by decide)
  ⟨by decide, h.1, h.2.2.2.2 (by decide)⟩

/-- C3: when the control file exists with content `c` that does not contain
`Encrypted\n` and every I/O step succeeds, after one call of `HideFolder` the
content is exactly `c` followed by `Encrypted\n` (and the call returns nil). -/
theorem HideFolder_appends_entry (fm : FileManager) (env : Env) (w : World) (f : File)
    (hf : w.files (hiddenFile env) = some f)
    (hc : stringsContains f.data "Encrypted\n".toList = false)
    (hok : AllStepsSucceed w (HideFolder fm env w).1) :
    (HideFolder fm env w).1.content (hiddenFile env) = some (f.data ++ "Encrypted\n".toList) ∧
      (HideFolder fm env w).2 = none :=
  run_unmarked fm env w f hf hc hok

/-- C3 at a control file holding `Other\n`, which becomes `Other\nEncrypted\n`. -/
theorem HideFolder_appends_entry_witness :
    worldOther.files (hiddenFile envPlain) = some { data := "Other\n".toList, perm := 0o644 } ∧
      AllStepsSucceed worldOther (HideFolder exampleFM envPlain worldOther).1 ∧
      (HideFolder exampleFM envPlain worldOther).1.content (hiddenFile envPlain) =
        some "Other\nEncrypted\n".toList :=
  ⟨by decide, by decide,
    (HideFolder_appends_entry exampleFM envPlain worldOther
      { data := "Other\n".toList, perm := 0o644 } (by decide) (by decide) (by decide)).1⟩

/-- C4: for every initial state and every `n ≥ 1`, when every I/O step of
`n` sequential calls of `HideFolder` succeeds, the content of the control
file after the `n` calls is its content after the first call. -/
theorem HideFolder_idempotent (fm : FileManager) (env : Env) (w : World) (n : Nat)
    (hn : 1 ≤ n) (hok : AllStepsSucceed w (HideFolderN fm env n w)) :
    (HideFolderN fm env n w).content (hiddenFile env) =
      (HideFolder fm env w).1.content (hiddenFile env) := by
  obtain ⟨m, rfl⟩ : ∃ m, n = m + 1 := ⟨n - 1, by omega⟩
  obtain ⟨e1, h1⟩ := HideFolder_log fm env w
  obtain ⟨e2, h2⟩ := HideFolderN_log fm env m (HideFolder fm env w).1
  have hfirst : AllStepsSucceed w (HideFolder fm env w).1 := by
    intro e he
    apply hok e
    rw [newEvents_of_log w _ e1 h1] at he
    rw [newEvents_of_log w _ (e1 ++ e2) (by rw [HideFolderN, h2, h1, List.append_assoc])]
    exact List.mem_append_left _ he
  obtain ⟨f, hf, hc⟩ := run_marks fm env w hfirst
  unfold World.content
  rw [HideFolderN, HideFolderN_files fm env m (HideFolder fm env w).1 f hf hc]

/-- C4 at three calls on a control file holding `Other\n`. -/
theorem HideFolder_idempotent_witness :
    1 ≤ 3 ∧ AllStepsSucceed worldOther (HideFolderN exampleFM envPlain 3 worldOther) ∧
      (HideFolderN exampleFM envPlain 3 worldOther).content (hiddenFile envPlain) =
        (HideFolder exampleFM envPlain worldOther).1.content (hiddenFile envPlain) :=
  ⟨by decide, by decide,
    HideFolder_idempotent exampleFM envPlain worldOther 3 (by decide) (by decide)⟩

/-- C5 fails on the code.  On a control file holding `Other` without a final
newline the call returns nil and leaves `OtherEncrypted\n`, whose only line
is `OtherEncrypted`; on a control file holding the line `NotEncrypted` the
substring test finds `Encrypted\n`, the call returns nil and writes nothing.
In both no line of the resulting file is `Encrypted`. -/
theorem HideFolder_entry_not_a_line :
    ((HideFolder exampleFM envPlain worldNoNewline).2 = none ∧
      (HideFolder exampleFM envPlain worldNoNewline).1.content (hiddenFile envPlain) =
        some "OtherEncrypted\n".toList ∧
      entries "OtherEncrypted\n".toList = ["OtherEncrypted".toList] ∧
      "Encrypted".toList ∉ entries "OtherEncrypted\n".toList) ∧
    ((HideFolder exampleFM envPlain worldSuffix).2 = none ∧
      (HideFolder exampleFM envPlain worldSuffix).1.content (hiddenFile envPlain) =
        some "NotEncrypted\n".toList ∧
      entries "NotEncrypted\n".toList = ["NotEncrypted".toList] ∧
      "Encrypted".toList ∉ entries "NotEncrypted\n".toList) := by
  decide

/-- C6 fails on the code.  Without a control file and with every step
succeeding, the file the call creates has mode 0644 under umask 022 and mode
0666 under umask 0, not 0600: group and other bits are requested at
creation.  The mode 0600 the source names on line 36 is passed to the open
for append, which carries no create flag, and has no effect on the file. -/
theorem HideFolder_creates_mode_0666 :
    worldEmpty.files (hiddenFile envPlain) = none ∧
      (HideFolder exampleFM envPlain worldEmpty).2 = none ∧
      ((HideFolder exampleFM envPlain worldEmpty).1.files (hiddenFile envPlain)).map File.perm =
        some 0o644 ∧
      ((HideFolder exampleFM { envPlain with umask := 0 } worldEmpty).1.files
        (hiddenFile envPlain)).map File.perm = some 0o666 ∧
      (0o644 : Nat) ≠ 0o600 ∧ 0o644 &&& 0o077 ≠ 0 ∧
      (0o666 : Nat) ≠ 0o600 ∧ 0o666 &&& 0o077 ≠ 0 ∧
      O_APPEND_WRONLY.create = false := by
  decide

/-- The mode of every file the call creates: when the control file does not
exist beforehand and exists afterwards, its mode is the 0666 of `os.Create`
filtered by the umask of the process, whatever the later steps do. -/
theorem HideFolder_created_mode (fm : FileManager) (env : Env) (w : World) (f : File)
    (habsent : w.files (hiddenFile env) = none)
    (hf : (HideFolder fm env w).1.files (hiddenFile env) = some f) :
    f.perm = applyUmask 0o666 env.umask := by
  rcases HideFolder_cases fm env w with ⟨r, -, -, h⟩ | ⟨e, -, h⟩ | ⟨-, h⟩
  · rw [h] at hf
    generalize hiddenFile env = p at *
    rcases readAndAppend_cases env (w.record Step.stat r) p with
      ⟨e, -, h2⟩ | ⟨f1, hf1, -, h2⟩ | ⟨f1, e, hf1, -, h2⟩ | ⟨f1, n, e, hf1, -, h2⟩ |
      ⟨f1, hf1, -, h2⟩
    · rw [h2] at hf; simp [habsent] at hf
    all_goals simp [habsent] at hf1
  · rw [h] at hf; simp [habsent] at hf
  · rw [h] at hf
    generalize hiddenFile env = p at *
    rcases readAndAppend_cases env _ p with
      ⟨e, -, h2⟩ | ⟨f1, hf1, -, h2⟩ | ⟨f1, e, hf1, -, h2⟩ | ⟨f1, n, e, hf1, -, h2⟩ |
      ⟨f1, hf1, -, h2⟩ <;> rw [h2] at hf
    · simp [World.record] at hf; rw [← hf]
    all_goals
      simp at hf1
      subst hf1
      simp [World.record] at hf
      rw [← hf]

/-- The mode of the created file at `HOME=/home/u`, umask 022: it is 0644. -/
theorem HideFolder_created_mode_witness :
    worldEmpty.files (hiddenFile envPlain) = none ∧
      (HideFolder exampleFM envPlain worldEmpty).1.files (hiddenFile envPlain) =
        some { data := "Encrypted\n".toList, perm := 0o644 } ∧
      (0o644 : Nat) = applyUmask 0o666 envPlain.umask :=
  ⟨by decide, by decide,
    HideFolder_created_mode exampleFM envPlain worldEmpty
      { data := "Encrypted\n".toList, perm := 0o644 } (by decide) (by decide)⟩

/-- C7 as stated fails at the stat step: the stat fails with `ENOMEM`
(not a not-exist error) on a control file that holds the entry, and the call
returns nil; the failure is dropped. -/
theorem HideFolder_stat_failure_ignored :
    (Step.stat,
        some { Op := "stat".toList, Path := "/home/u/.hidden".toList, Err := Errno.ENOMEM }) ∈
        newEvents worldMarked (HideFolder exampleFM envStatFails worldMarked).1 ∧
      (HideFolder exampleFM envStatFails worldMarked).2 = none := by
  decide

/-- C7 amended: for each of the four steps create, read, open-for-append and
write, when that step fails with the underlying error `e`, `HideFolder`
returns a non-nil error whose message is the description of that step
followed by the text of the underlying error, and that step is the last one
performed; the messages of different steps differ.  A stat failure other
than not-exist is not returned: the create is skipped and the call goes on
to the read. -/
theorem HideFolder_step_errors (fm : FileManager) (env : Env) (w : World) :
    (∀ err, (Step.create, some err) ∈ newEvents w (HideFolder fm env w).1 →
      (HideFolder fm env w).2 =
          some (fmtErrorf "failed to create .hidden file: ".toList err) ∧
        (newEvents w (HideFolder fm env w).1).getLast? = some (Step.create, some err)) ∧
    (∀ err, (Step.read, some err) ∈ newEvents w (HideFolder fm env w).1 →
      (HideFolder fm env w).2 =
          some (fmtErrorf "failed to read .hidden file: ".toList err) ∧
        (newEvents w (HideFolder fm env w).1).getLast? = some (Step.read, some err)) ∧
    (∀ err, (Step.openAppend, some err) ∈ newEvents w (HideFolder fm env w).1 →
      (HideFolder fm env w).2 =
          some (fmtErrorf "failed to open .hidden file: ".toList err) ∧
        (newEvents w (HideFolder fm env w).1).getLast? = some (Step.openAppend, some err)) ∧
    (∀ err, (Step.write, some err) ∈ newEvents w (HideFolder fm env w).1 →
      (HideFolder fm env w).2 =
          some (fmtErrorf "failed to write to .hidden file: ".toList err) ∧
        (newEvents w (HideFolder fm env w).1).getLast? = some (Step.write, some err)) ∧
    (∀ err, (Step.stat, some err) ∈ newEvents w (HideFolder fm env w).1 →
      err.Err ≠ Errno.ENOENT →
      (∀ r, (Step.create, r) ∉ newEvents w (HideFolder fm env w).1) ∧
        ∃ r, (Step.read, r) ∈ newEvents w (HideFolder fm env w).1) ∧
    (∀ e1 e2 : PathError,
      fmtErrorf "failed to create .hidden file: ".toList e1 ≠
          fmtErrorf "failed to read .hidden file: ".toList e2 ∧
      fmtErrorf "failed to create .hidden file: ".toList e1 ≠
          fmtErrorf "failed to open .hidden file: ".toList e2 ∧
      fmtErrorf "failed to create .hidden file: ".toList e1 ≠
          fmtErrorf "failed to write to .hidden file: ".toList e2 ∧
      fmtErrorf "failed to read .hidden file: ".toList e1 ≠
          fmtErrorf "failed to open .hidden file: ".toList e2 ∧
      fmtErrorf "failed to read .hidden file: ".toList e1 ≠
          fmtErrorf "failed to write to .hidden file: ".toList e2 ∧
      fmtErrorf "failed to open .hidden file: ".toList e1 ≠
          fmtErrorf "failed to write to .hidden file: ".toList e2) := by
  refine ⟨?_, ?_, ?_, ?_, ?_, messages_distinct⟩ <;>
  · rcases HideFolder_cases fm env w with ⟨r, -, hne, h⟩ | ⟨e, -, h⟩ | ⟨-, h⟩
    · rw [h]
      generalize hiddenFile env = p at *
      rcases readAndAppend_cases env (w.record Step.stat r) p with
        ⟨e, -, h2⟩ | ⟨f1, hf1, -, h2⟩ | ⟨f1, e, hf1, -, h2⟩ | ⟨f1, n, e, hf1, -, h2⟩ |
        ⟨f1, hf1, -, h2⟩ <;> rw [h2] <;> simp [newEvents]
    · rw [h]
      simp [newEvents]
    · rw [h]
      generalize hiddenFile env = p at *
      rcases readAndAppend_cases env _ p with
        ⟨e, -, h2⟩ | ⟨f1, hf1, -, h2⟩ | ⟨f1, e, hf1, -, h2⟩ | ⟨f1, n, e, hf1, -, h2⟩ |
        ⟨f1, hf1, -, h2⟩ <;> rw [h2] <;> simp [newEvents]

/-- C7 amended at a create that fails with `EMFILE` on a missing control file. -/
theorem HideFolder_step_errors_witness :
    (Step.create,
        some { Op := "open".toList, Path := "/home/u/.hidden".toList, Err := Errno.EMFILE }) ∈
        newEvents worldEmpty (HideFolder exampleFM envCreateFails worldEmpty).1 ∧
      (HideFolder exampleFM envCreateFails worldEmpty).2 =
        some (fmtErrorf "failed to create .hidden file: ".toList
          { Op := "open".toList, Path := "/home/u/.hidden".toList, Err := Errno.EMFILE }) ∧
      (newEvents worldEmpty (HideFolder exampleFM envCreateFails worldEmpty).1).getLast? =
        some (Step.create,
          some { Op := "open".toList, Path := "/home/u/.hidden".toList, Err := Errno.EMFILE }) :=
  ⟨by decide,
    (HideFolder_step_errors exampleFM envCreateFails worldEmpty).1
      { Op := "open".toList, Path := "/home/u/.hidden".toList, Err := Errno.EMFILE }
      (by decide)⟩

/-- C8 as stated fails: on a readable, read-only control file holding
`Other\n` the open for append is denied and the call returns the open-step
error; the message does not start with the description of the write step,
and the write step is never reached. -/
theorem HideFolder_readonly_is_open_error :
    (HideFolder exampleFM envPlain worldReadOnly).2 =
        some "failed to open .hidden file: open /home/u/.hidden: permission denied".toList ∧
      "failed to write to .hidden file: ".toList.isPrefixOf
        "failed to open .hidden file: open /home/u/.hidden: permission denied".toList = false ∧
      (newEvents worldReadOnly (HideFolder exampleFM envPlain worldReadOnly).1).map Prod.fst =
        [Step.stat, Step.read, Step.openAppend] := by
  decide

/-- C8 amended: when the control file exists, is readable, does not contain
`Encrypted\n`, and is read-only so that opening it for append is denied,
`HideFolder` returns the open-step error wrapping the permission error, and
no file is changed. -/
theorem HideFolder_readonly_open_denied (fm : FileManager) (env : Env) (w : World) (f : File)
    (hf : w.files (hiddenFile env) = some f)
    (hrd : f.ownerReadable = true) (hro : f.ownerWritable = false)
    (hc : stringsContains f.data "Encrypted\n".toList = false)
    (hfr : env.faults.read = none) (hfo : env.faults.openAppend = none) :
    (HideFolder fm env w).2 =
        some (fmtErrorf "failed to open .hidden file: ".toList
          { Op := "open".toList, Path := hiddenFile env, Err := Errno.EACCES }) ∧
      (HideFolder fm env w).1.files = w.files := by
  rcases HideFolder_cases fm env w with ⟨r, -, -, h⟩ | ⟨e, h0, -⟩ | ⟨h0, -⟩
  · rw [h, readAndAppend_unwritable env (w.record Step.stat r) (hiddenFile env) f hfr
      (by simpa using hf) hrd hc hfo hro]
    simp
  · simp [hf] at h0
  · simp [hf] at h0

/-- C8 amended at a control file holding `Other\n` with mode 0444. -/
theorem HideFolder_readonly_open_denied_witness :
    worldReadOnly.files (hiddenFile envPlain) =
        some { data := "Other\n".toList, perm := 0o444 } ∧
      (HideFolder exampleFM envPlain worldReadOnly).2 =
        some (fmtErrorf "failed to open .hidden file: ".toList
          { Op := "open".toList, Path := hiddenFile envPlain, Err := Errno.EACCES }) ∧
      (HideFolder exampleFM envPlain worldReadOnly).1.files = worldReadOnly.files :=
  ⟨by decide,
    HideFolder_readonly_open_denied exampleFM envPlain worldReadOnly
      { data := "Other\n".toList, perm := 0o444 } (by decide) (by decide) (by decide)
      (by decide) (by decide) (by decide)⟩

/-- C9 as stated fails: with an empty `HOME` the path is the relative
`.hidden`, not `/.hidden`; with `HOME=.` it is `.hidden`, not `./.hidden`;
with `HOME=/srv//data` it is `/srv/data/.hidden`. -/
theorem hiddenFile_empty_home_relative :
    hiddenFile { home := [], umask := 0o022, faults := Faults.none } = ".hidden".toList ∧
      hiddenFile { home := [], umask := 0o022, faults := Faults.none } ≠ "/.hidden".toList ∧
      hiddenFile { home := ".".toList, umask := 0o022, faults := Faults.none } =
        ".hidden".toList ∧
      hiddenFile { home := "/srv//data".toList, umask := 0o022, faults := Faults.none } =
        "/srv/data/.hidden".toList := by
  decide

/-- C9 amended: when `HOME` is empty the control-file path is the relative
path `.hidden`; for every non-empty `HOME` value `h` it is
`Clean(h + "/.hidden")`, which is `h` followed by `/.hidden` whenever `h` is
a path of plain elements joined by single separators, rooted or not. -/
theorem hiddenFile_path :
    (∀ env : Env, env.home = [] → hiddenFile env = ".hidden".toList) ∧
    (∀ env : Env, env.home ≠ [] → hiddenFile env = Clean (env.home ++ "/.hidden".toList)) ∧
    (∀ (env : Env) (comps : List GoString), comps ≠ [] → (∀ x ∈ comps, PlainComponent x) →
      (env.home = stringsJoin comps ['/'] ∨ env.home = '/' :: stringsJoin comps ['/']) →
      hiddenFile env = env.home ++ "/.hidden".toList) := by
  have hjoin : ∀ h : GoString, h ≠ [] →
      filepathJoin [h, ".hidden".toList] = Clean (h ++ "/.hidden".toList) := by
    intro h hne
    simp [filepathJoin, hne, stringsJoin, List.intercalate]
  have hplain : PlainComponent ".hidden".toList := by
    refine ⟨by decide, by decide, by decide, by decide⟩
  refine ⟨?_, ?_, ?_⟩
  · intro env h
    unfold hiddenFile
    rw [h]
    decide
  · intro env h
    exact hjoin _ h
  · intro env comps hne hall hhome
    obtain ⟨c, cs, rfl⟩ := List.exists_cons_of_ne_nil hne
    have hc := hall c (List.mem_cons_self _ _)
    have hcs : ∀ x ∈ cs ++ [".hidden".toList], PlainComponent x := by
      intro x hx
      rcases List.mem_append.1 hx with h | h
      · exact hall x (List.mem_cons_of_mem _ h)
      · rw [List.mem_singleton.1 h]; exact hplain
    have hcne : c ≠ [] := hc.1
    have key : (c ++ slashed cs) ++ "/.hidden".toList =
        c ++ slashed (cs ++ [".hidden".toList]) := by
      rw [slashed_append, List.append_assoc]
      rfl
    unfold hiddenFile
    rw [stringsJoin_cons] at hhome
    rcases hhome with h | h
    · rw [h, hjoin _ (by simp [hcne]), key]
      exact Clean_relative c _ hc hcs
    · rw [h, hjoin _ (by simp), List.cons_append, key]
      exact Clean_rooted c _ hc hcs

/-- C9 amended at `HOME=/home/u`: the path is `/home/u/.hidden`. -/
theorem hiddenFile_path_witness :
    hiddenFile envPlain = envPlain.home ++ "/.hidden".toList :=
  hiddenFile_path.2.2 envPlain ["home".toList, "u".toList] (by decide) (by decide)
    (Or.inr (by decide))

/-- C10 fails on the code: without a control file and with every step
succeeding, the call returns nil and the handle returned by `os.Create` is
still open afterwards, while no handle was open before. -/
theorem HideFolder_leaks_created_handle :
    worldEmpty.handles = [] ∧
      (HideFolder exampleFM envPlain worldEmpty).2 = none ∧
      (HideFolder exampleFM envPlain worldEmpty).1.handles =
        [{ fd := 3, name := "/home/u/.hidden".toList, flag := O_RDWR_CREATE_TRUNC }] ∧
      (HideFolder exampleFM envPlain worldEmpty).1.handles ≠ worldEmpty.handles := by
  decide

end SolaceCrypt
